import Mathlib

/-!
# Verification of the databento-options-puller specification

A shallow embedding of the parts of the repository that the claims touch:

* `utils/symbol_utils.py` — option-symbol parsing and construction;
* `src/databento_client.py` — the vendor data bridge (fetch fallbacks,
  spot-price mapping);
* `src/delta_calculator.py` — Black-Scholes delta and strike selection;
* `src/options_manager.py` — the selection manager's symbol builder;
* `src/futures_manager.py` and `utils/date_utils.py` — roll dates and the
  names each module defines/imports;
* `src/output_validator.py` — the calibration validator;
* `databento_options_puller.py` — the main CLI's table construction.

Python strings are modelled as `String` or `List Char` (noted per section),
Python floats as `ℚ` under exact arithmetic (or `ℝ` for the Black-Scholes
analysis), dicts/lists as Lean structures and lists, and external I/O
(vendor client, HTTP, local file) as explicit oracle parameters.
-/

namespace DBOP

/-! ## Python-style numeric and string helpers -/

/-- Python whitespace class `\s` for the `re` module (ASCII): space, tab,
newline, carriage return, vertical tab, form feed. -/
def isSpaceChar (c : Char) : Bool :=
  c = ' ' || c = '\t' || c = '\n' || c = '\r' || c = '\x0b' || c = '\x0c'

/-- Uppercase ASCII letter, the `[A-Z]` character class. -/
def isUpperAZ (c : Char) : Bool := 'A' ≤ c && c ≤ 'Z'

/-- Python `str.strip()` on a character list: drop leading and trailing
whitespace. -/
def stripChars (l : List Char) : List Char :=
  ((l.dropWhile isSpaceChar).reverse.dropWhile isSpaceChar).reverse

/-- Little-endian base-10 digits with explicit fuel, so that the kernel can
evaluate it; agrees with `Nat.digits 10` whenever `n ≤ fuel`. -/
def natDigitsAux : ℕ → ℕ → List ℕ
  | _, 0 => []
  | 0, _ + 1 => []
  | fuel + 1, n + 1 => (n + 1) % 10 :: natDigitsAux fuel ((n + 1) / 10)

/-- Decimal digit characters of a natural number, big-endian, as Python
`str(n)` renders them (`"0"` for zero, no leading zeros otherwise). -/
def natStr (n : ℕ) : List Char :=
  if n = 0 then ['0'] else ((natDigitsAux n n).map Nat.digitChar).reverse

/-- Python `str(n)` for an integer (decimal, `-` sign for negatives). -/
def intStr (n : ℤ) : List Char :=
  if n < 0 then '-' :: natStr (-n).toNat else natStr n.toNat

/-- Numeric value of a big-endian string of decimal digit characters
(Python `int(s)` on a digit string, leading zeros allowed). -/
def digitsVal (l : List Char) : ℕ :=
  l.foldl (fun a c => 10 * a + (c.toNat - 48)) 0

/-- Python `round(x)` / the rounding used by `format(x, '.2f')`: round half
to even, on the exact rational value. -/
def pyRound (q : ℚ) : ℤ :=
  let f : ℤ := ⌊q⌋
  let r : ℚ := q - (f : ℚ)
  if r < 1/2 then f
  else if 1/2 < r then f + 1
  else if f % 2 = 0 then f else f + 1

/-- Left-pad a digit string with zeros to width `w` (Python `f"{n:0wd}"`
for nonnegative `n`). -/
def padZeros (w : ℕ) (l : List Char) : List Char :=
  List.replicate (w - l.length) '0' ++ l

/-- Python `f"{x:.2f}"`: the value rounded to two decimals, rendered with
exactly two digits after the point. -/
def format2dec (q : ℚ) : String :=
  let n := pyRound (q * 100)
  let a := n.natAbs
  let body := natStr (a / 100) ++ '.' :: padZeros 2 (natStr (a % 100))
  if n < 0 then ⟨'-' :: body⟩ else ⟨body⟩

/-- Python `s.lower()` for the ASCII strings the code compares. -/
def pyLower (s : String) : String := ⟨s.toList.map Char.toLower⟩

/-- Python `s.rstrip(c)`: drop every trailing occurrence of `c`. -/
def rstripChar (c : Char) (s : String) : String :=
  ⟨(s.toList.reverse.dropWhile (· = c)).reverse⟩

/-- The CLI's option-cell post-processing (`databento_options_puller.py`
lines 404-405): strip trailing zeros after the decimal point, then a
dangling decimal point. -/
def stripCell (s : String) : String :=
  if s.toList.contains '.' then rstripChar '.' (rstripChar '0' s) else s

/-! ## Symbol Utilities (`utils/symbol_utils.py`)

Python strings are modelled as `List Char` in this section.  The regex
`^([A-Z]+)([FGHJKMNQUVXZ])(\d)\s+([CP])(\d+)$` of `parse_option_symbol` is
implemented as a scan for the split point between the greedy `[A-Z]+` root
and the month-code letter; since the character right after the month code
must be a digit and digits are not uppercase letters, at most one split
point can match, so the scan agrees with the regex's greedy backtracking.
-/

/-- The 12 futures month-code letters, in `MONTH_CODES` order. -/
def monthCodeChars : List Char :=
  ['F', 'G', 'H', 'J', 'K', 'M', 'N', 'Q', 'U', 'V', 'X', 'Z']

/-- The `MONTH_CODES` table mapping code letters to month numbers. -/
def monthCodeTable : List (Char × ℕ) :=
  [('F', 1), ('G', 2), ('H', 3), ('J', 4), ('K', 5), ('M', 6),
   ('N', 7), ('Q', 8), ('U', 9), ('V', 10), ('X', 11), ('Z', 12)]

/-- Month number of a month-code letter (`MONTH_CODES[c]`). -/
def monthOfCode (c : Char) : Option ℕ :=
  (monthCodeTable.find? (fun p => p.1 = c)).map Prod.snd

/-- Month-code letter of a month number (`MONTH_TO_CODE[m]`). -/
def codeOfMonth (m : ℕ) : Option Char :=
  (monthCodeTable.find? (fun p => p.2 = m)).map Prod.fst

/-- A nonnegative finite IEEE-754 binary64 value `m · 2^e`, the
representation of the Python floats flowing through the strike arithmetic
(`float(strike_raw) / 100` and `int(strike * 100)` are IEEE double
operations, not exact rational ones).  Results of the rounding below are
normalized: `m ∈ [2^52, 2^53)`, or `m = 0`. -/
structure Float64 where
  m : ℕ
  e : ℤ
  deriving Repr, DecidableEq

/-- Normalize the positive fraction `(a/b) · 2^e` so that
`2^52 ≤ a/b < 2^53`, doubling `a` or `b` one bit per step; the fuel bounds
the steps needed and is never exhausted for the fuel chosen below. -/
def dblNorm : ℕ → ℕ → ℕ → ℤ → ℕ × ℕ × ℤ
  | 0, a, b, e => (a, b, e)
  | fuel + 1, a, b, e =>
      if a < 2 ^ 52 * b then dblNorm fuel (2 * a) b (e - 1)
      else if 2 ^ 53 * b ≤ a then dblNorm fuel a (2 * b) (e + 1)
      else (a, b, e)

/-- Round the exact rational `(a/b) · 2^e` (`b > 0`) to the nearest
binary64 value, ties to even: normalize, split `a/b` into quotient and
remainder, round, and renormalize a carried `2^53` significand.  The fuel
`a + b + 120` covers the `|log2 (a/b)| + 53` doubling steps needed, since
`log2 a + log2 b + 120 ≤ a + b + 120`. -/
def roundRat (a b : ℕ) (e : ℤ) : Float64 :=
  if a = 0 then ⟨0, 0⟩ else
  match dblNorm (a + b + 120) a b e with
  | (a2, b2, e2) =>
      let q := a2 / b2
      let r := a2 % b2
      let m := if 2 * r < b2 then q
        else if b2 < 2 * r then q + 1
        else if q % 2 = 0 then q else q + 1
      if m = 2 ^ 53 then ⟨2 ^ 52, e2 + 1⟩ else ⟨m, e2⟩

/-- Python `float(n)` for a natural `n` (equivalently `float(s)` for the
decimal digit string of `n`): the nearest binary64. -/
def floatOfNat (n : ℕ) : Float64 := roundRat n 1 0

/-- IEEE binary64 division (nonnegative operands, divisor nonzero): the
exact quotient `(x.m / y.m) · 2^(x.e - y.e)`, correctly rounded. -/
def floatDiv (x y : Float64) : Float64 := roundRat x.m y.m (x.e - y.e)

/-- IEEE binary64 multiplication (nonnegative operands): the exact
product, correctly rounded. -/
def floatMul (x y : Float64) : Float64 := roundRat (x.m * y.m) 1 (x.e + y.e)

/-- Python `int(x)` on a nonnegative float: truncation toward zero. -/
def floatTruncNat (x : Float64) : ℕ :=
  if 0 ≤ x.e then x.m * 2 ^ x.e.toNat else x.m / 2 ^ (-x.e).toNat

/-- Result of `parse_option_symbol`: the dict of parsed components. -/
structure ParsedOption where
  root : List Char
  monthCode : Char
  month : ℕ
  yearCode : Char
  year : ℕ
  optionType : Char
  strike : Float64
  strikeRaw : ℕ
  fullSymbol : List Char
  deriving Repr, DecidableEq

/-- Match the `([CP])(\d+)$` part of the pattern. -/
def matchTypeStrike : List Char → Option (Char × List Char)
  | t :: rest =>
      if (t = 'C' || t = 'P') && !rest.isEmpty && rest.all Char.isDigit then
        some (t, rest)
      else none
  | [] => none

/-- Match the `\s+([CP])(\d+)$` part of the pattern (at least one
whitespace character, then option type and strike digits). -/
def matchTail : List Char → Option (Char × List Char)
  | c :: rest =>
      if isSpaceChar c then matchTypeStrike (rest.dropWhile isSpaceChar)
      else none
  | [] => none

/-- Scan for the unique split of the symbol into a nonempty uppercase root,
a month-code letter, a year digit, and the `\s+([CP])(\d+)$` tail. -/
def findSplit : List Char → List Char → Option (List Char × Char × Char × Char × List Char)
  | acc, c1 :: c2 :: tl =>
      if !acc.isEmpty && monthCodeChars.contains c1 && c2.isDigit then
        match matchTail tl with
        | some (t, digits) => some (acc, c1, c2, t, digits)
        | none => if isUpperAZ c1 then findSplit (acc ++ [c1]) (c2 :: tl) else none
      else
        if isUpperAZ c1 then findSplit (acc ++ [c1]) (c2 :: tl) else none
  | _, _ => none

/-- `parse_option_symbol(symbol)`: strip the input, match the documented
pattern and return the parsed components (`none` models the `ValueError`
raised on a failed match).  Strike is `float(strike_raw) / 100` per the
source, in IEEE binary64 arithmetic. -/
def parse_option_symbol (symbol : List Char) : Option ParsedOption :=
  match findSplit [] (stripChars symbol) with
  | none => none
  | some (root, mc, yc, t, digits) =>
      match monthOfCode mc with
      | none => none
      | some m =>
          some { root := root
                 monthCode := mc
                 month := m
                 yearCode := yc
                 year := 2020 + (yc.toNat - 48)
                 optionType := t
                 strike := floatDiv (floatOfNat (digitsVal digits)) (floatOfNat 100)
                 strikeRaw := digitsVal digits
                 fullSymbol := symbol }

/-- `build_option_symbol(root, month, year, option_type, strike)`:
month-code lookup, last digit of the year, `int(strike * 100)` in IEEE
binary64 arithmetic with no padding (`none` models the `ValueError` on an
invalid month; the strikes passed here are nonnegative). -/
def build_option_symbol (root : List Char) (month : ℕ) (year : ℕ)
    (optionType : List Char) (strike : Float64) : Option (List Char) :=
  match codeOfMonth month with
  | none => none
  | some mc =>
      let yearCode : Char := (natStr year).getLastD '0'
      let strikeRaw : ℕ := floatTruncNat (floatMul strike (floatOfNat 100))
      some (root ++ mc :: yearCode :: ' ' :: optionType ++ natStr strikeRaw)

/-- `build_option_symbol(parse_option_symbol(s))` with the components
passed exactly as `run` code would pass them. -/
def roundTripSymbol (s : List Char) : Option (List Char) :=
  (parse_option_symbol s).bind fun p =>
    build_option_symbol p.root p.month p.year [p.optionType] p.strike

/-- A symbol assembled from parts matching the documented pattern
`ROOT + MONTH_CODE + YEAR_DIGIT , space , (C|P) + DIGITS`. -/
def symbolOfParts (root : List Char) (mc yc t : Char) (digits : List Char) : List Char :=
  root ++ mc :: yc :: ' ' :: t :: digits

/-- `int(float(n) / 100 * 100) == n`: whether a strike's raw digit value
survives the parse/build float arithmetic (true for e.g. 25, 278 and
27800; false for e.g. 29, where the pipeline yields 28). -/
def strikeFloatRoundTrip (n : ℕ) : Prop :=
  floatTruncNat (floatMul (floatDiv (floatOfNat n) (floatOfNat 100)) (floatOfNat 100)) = n

instance : DecidablePred strikeFloatRoundTrip := fun n => by
  unfold strikeFloatRoundTrip; infer_instance

/-- The documented well-formedness of an option symbol's parts. -/
def WellFormedParts (root : List Char) (mc yc t : Char) (digits : List Char) : Prop :=
  root ≠ [] ∧ (∀ c ∈ root, isUpperAZ c) ∧ mc ∈ monthCodeChars ∧
    yc.isDigit ∧ (t = 'C' ∨ t = 'P') ∧ digits ≠ [] ∧ ∀ c ∈ digits, c.isDigit

instance (root : List Char) (mc yc t : Char) (digits : List Char) :
    Decidable (WellFormedParts root mc yc t digits) := by
  unfold WellFormedParts; infer_instance



/-! ## Vendor Data Bridge (`src/databento_client.py`)

The bridge's external effects are modelled as oracle parameters: the local
file cache, the vendor client call and the raw-HTTP fallback each either
raise (`TierResult.err`) or return a list of rows.  `use_local_file` and
the presence of a usable client (`not self.mock_mode and self.client`) are
booleans fixed at construction.
-/

/-- Python `s.startswith(pre)`, implemented over the character lists so
that the kernel can evaluate it. -/
def pyStartsWith (s pre : String) : Bool := pre.toList.isPrefixOf s.toList

/-- One row of an OHLCV response (`date` plus the price columns). -/
structure Bar where
  dateStr : String
  openPx : ℚ
  highPx : ℚ
  lowPx : ℚ
  closePx : ℚ
  volume : ℤ
  deriving Repr, DecidableEq

/-- Outcome of one data tier: an exception, or rows (possibly none). -/
inductive TierResult where
  | err : TierResult
  | rows : List Bar → TierResult
  deriving Repr, DecidableEq

/-- `DatabentoBridge._is_explicit_contract`: at least 4 characters, ending
in a month-code letter followed by a digit. -/
def isExplicitContract (symbol : String) : Bool :=
  if symbol.length < 4 then false
  else
    match symbol.toList.reverse with
    | last :: secondLast :: _ => monthCodeChars.contains secondLast && last.isDigit
    | _ => false

/-- The symbol-resolution step of `fetch_futures_continuous` (lines
748-783): explicit contracts are used verbatim; the HO/OH roots map to the
continuous `"HO"`; ES/CL roots map to hardcoded 2024 contracts; anything
else is used directly. -/
def resolveFuturesSymbol (root : String) (startYear startMonth : ℕ) : String :=
  if isExplicitContract root then root
  else if root = "OH" ∨ root = "HO" then "HO"
  else if root = "ES" then
    if startYear = 2024 ∧ startMonth ≤ 3 then "ESH4"
    else if startYear = 2024 ∧ startMonth ≤ 6 then "ESM4"
    else if startYear = 2024 ∧ startMonth ≤ 9 then "ESU4"
    else "ESZ4"
  else if root = "CL" then
    if startYear = 2024 ∧ startMonth ≤ 2 then "CLG4"
    else if startYear = 2024 ∧ startMonth ≤ 5 then "CLK4"
    else "CLN4"
  else root

/-- The wire request of the client tier (lines 804-838): HO symbols always
request the continuous front-month series `"HO.c.0"`; explicit contracts
are requested raw; other roots request `"<root>.c.0"` continuous.  Returns
the request symbol and whether `stype_in='continuous'` is used. -/
def clientRequestSeries (symbol : String) : String × Bool :=
  if pyStartsWith symbol "HO" then ("HO.c.0", true)
  else if isExplicitContract symbol then (symbol, false)
  else (symbol ++ ".c.0", true)

/-- `fetch_futures_continuous(root, start, end)` with its three tiers.
In local-file mode the cache answers directly; otherwise the client tier
is tried when available (an exception falls through), and the raw-HTTP
tier's exception or empty payload degrades to an empty table.  The
`Except` result shape records that no exception escapes. -/
def fetch_futures_continuous (useLocalFile : Bool) (hasClient : Bool)
    (localRows : List Bar) (clientTier httpTier : TierResult) :
    Except String (List Bar) :=
  if useLocalFile then .ok localRows
  else
    match hasClient, clientTier with
    | true, .rows bars => .ok bars
    | _, _ =>
        match httpTier with
        | .rows bars => .ok bars
        | .err => .ok []

/-- `fetch_option_history(symbol, start, end, schema)`: the same
local-file / client / raw-HTTP fallback ladder as the futures fetch, with
schema-dependent column selection that does not affect emptiness. -/
def fetch_option_history (useLocalFile : Bool) (hasClient : Bool)
    (localRows : List Bar) (clientTier httpTier : TierResult) :
    Except String (List Bar) :=
  if useLocalFile then .ok localRows
  else
    match hasClient, clientTier with
    | true, .rows bars => .ok bars
    | _, _ =>
        match httpTier with
        | .rows bars => .ok bars
        | .err => .ok []

/-- The symbol mapping at the top of `get_spot_price` (lines 1344-1350):
any symbol starting with `'HO'`, or exactly `'OH'`, is replaced by the
continuous root `'HO'`; everything else is used directly. -/
def spotSymbolToUse (underlying : String) : String :=
  if pyStartsWith underlying "HO" || underlying == "OH" then "HO" else underlying

/-- `get_spot_price(underlying, date)`: map the symbol, delegate to
`fetch_futures_continuous` for the single day (`start = end = date`), and
return the first row's close, or the 2.50 fallback when no data was found.
The tier oracles are functions of the requested `(symbol, start, end)`
triple, so the single-day delegation is visible in the definition. -/
def get_spot_price (useLocalFile : Bool) (hasClient : Bool)
    (localRowsFor : String → String → String → List Bar)
    (clientTierFor httpTierFor : String → String → String → TierResult)
    (underlying : String) (dateStr : String) : Except String ℚ :=
  let symbolToUse := spotSymbolToUse underlying
  match fetch_futures_continuous useLocalFile hasClient
      (localRowsFor symbolToUse dateStr dateStr)
      (clientTierFor symbolToUse dateStr dateStr)
      (httpTierFor symbolToUse dateStr dateStr) with
  | .ok (b :: _) => .ok b.closePx
  | .ok [] => .ok (5 / 2)
  | .error e => .error e



/-! ## Module-level names (`utils/date_utils.py`, `src/futures_manager.py`)

`FuturesManager.get_roll_date` calls `get_first_trading_day`, a name line
17 of `src/futures_manager.py` imports from `utils.date_utils`; the lists
below record the names that module actually defines. -/

/-- Every function `utils/date_utils.py` defines at module level. -/
def dateUtilsDefinedNames : List String :=
  ["parse_date", "format_date", "is_trading_day", "get_next_trading_day",
   "get_previous_trading_day", "get_first_trading_day_of_month",
   "get_last_trading_day_of_month", "generate_trading_days",
   "count_trading_days", "add_trading_days"]

/-- The names `src/futures_manager.py` line 17 imports from
`utils.date_utils`. -/
def futuresManagerDateUtilsImports : List String :=
  ["parse_date", "is_trading_day", "get_first_trading_day"]

/-! ## Options Selection Manager symbol builder (`src/options_manager.py`) -/

/-- Python `f"{n:05d}"`: zero-pad to width 5 (sign included for negatives). -/
def fmtZeroPad5 (n : ℤ) : List Char :=
  if n < 0 then '-' :: padZeros 4 (natStr (-n).toNat) else padZeros 5 (natStr n.toNat)

/-- `OptionsManager._build_option_symbol(underlying_contract, strike,
option_type)` (lines 348-367): `strike_int = int(round(strike * 100))`,
then `f"{underlying_contract} {option_type}{strike_int:05d}"`. -/
def omBuildOptionSymbol (underlyingContract : List Char) (strike : ℚ)
    (optionType : List Char) : List Char :=
  let strikeInt : ℤ := pyRound (strike * 100)
  underlyingContract ++ ' ' :: optionType ++ fmtZeroPad5 strikeInt

/-! ## Delta Calculator (`src/delta_calculator.py`)

Black-Scholes delta over the reals; `scipy.stats.norm.cdf` is the standard
normal cumulative distribution function. -/

/-- The standard normal CDF (`scipy.stats.norm.cdf`). -/
noncomputable def normCDF (x : ℝ) : ℝ :=
  ∫ t in Set.Iic x, ProbabilityTheory.gaussianPDFReal 0 1 t

open scoped Classical in
/-- `DeltaCalculator.calculate_delta(spot, strike, T, vol, option_type)`
(lines 53-103): guards for nonpositive spot, expiry and volatility, then
`d1 = (ln(S/K) + (r + vol²/2)·T) / (vol·√T)` and `Φ(d1)` for calls,
`-Φ(-d1)` for puts; an invalid option type is caught by the handler and
becomes 0. -/
noncomputable def calculate_delta (r S K T vol : ℝ) (optionType : String) : ℝ :=
  if S ≤ 0 then 0
  else if T ≤ 0 then
    if optionType = "call" then (if K < S then 1 else 0) else 0
  else
    let v := if vol ≤ 0 then 1 / 100 else vol
    let d1 := (Real.log (S / K) + (r + v ^ 2 / 2) * T) / (v * Real.sqrt T)
    if pyLower optionType = "call" then normCDF d1
    else if pyLower optionType = "put" then -normCDF (-d1)
    else 0

open scoped Classical in
/-- The body of `find_target_delta_strike`'s loop: keep the strike whose
delta is strictly closer to the target (`none` is the initial
`float('inf')` distance, which the first candidate always beats). -/
noncomputable def stepBest (r S T vol target : ℝ) (optionType : String)
    (st : ℝ × ℝ × Option ℝ) (k : ℝ) : ℝ × ℝ × Option ℝ :=
  let d := calculate_delta r S k T vol optionType
  let dist := |d - target|
  match st with
  | (_, _, none) => (k, d, some dist)
  | (bs, bd, some bdist) =>
      if dist < bdist then (k, d, some dist) else (bs, bd, some bdist)

/-- `DeltaCalculator.find_target_delta_strike(spot, strikes, T, vol,
target, option_type)` (lines 154-207): with no strikes, return
`(spot_price, 0.0)`; otherwise scan all strikes for the delta closest to
the target (first seen wins ties). -/
noncomputable def find_target_delta_strike (r S : ℝ) (strikes : List ℝ)
    (T vol target : ℝ) (optionType : String) : ℝ × ℝ :=
  match strikes with
  | [] => (S, 0)
  | k0 :: _ =>
      let res := strikes.foldl (stepBest r S T vol target optionType) (k0, 0, none)
      (res.1, res.2.1)



/-! ## Main Data-Pull CLI (`databento_options_puller.py`, `run_data_pull`)

The run is modelled as a function of the data it consumes: the selected
options, the pre-fetched option history per symbol, the per-day front
month futures quote (`None` models the caught per-day exception), and the
list of dates the `timestamp` column covers (`generate_trading_days` in
live mode, the reference file's parsed dates in the hardcoded
exact-target branch).  The second component of the result collects the
CSV paths written, so "raises before any CSV is written" is visible. -/

/-- A calendar date. -/
structure CalDate where
  year : ℕ
  month : ℕ
  day : ℕ
  deriving Repr, DecidableEq

/-- `d.strftime('%-m/%-d/%y')` (line 338): month and day unpadded, two
zero-padded year digits — and also the option-population key
`f"{m}/{d}/{yy}"` of line 396, which renders identically. -/
def fmtMDY (d : CalDate) : String :=
  ⟨natStr d.month ++ '/' :: natStr d.day ++ '/' :: padZeros 2 (natStr (d.year % 100))⟩

/-- The output table: the `timestamp` column, the `Futures_Price` column
(absent in the exact-target branch), and one column per selected option. -/
structure OutTable where
  timestamps : List String
  futuresCol : Option (List String)
  optionCols : List (String × List String)
  deriving Repr, DecidableEq

/-- The cell an option column gets at one timestamp (lines 383-410): the
last pre-fetched row whose formatted date equals the row's timestamp,
2-decimal formatted with trailing zeros then a dangling point stripped;
empty when no row matches. -/
def optionCellFor (rows : List (CalDate × ℚ)) (ts : String) : String :=
  match (rows.filter (fun pr => fmtMDY pr.1 = ts)).getLast? with
  | some pr => stripCell (format2dec pr.2)
  | none => ""

/-- `run_data_pull` (lines 254-438): raise `RuntimeError` when the
strategy selected nothing (before building or writing anything); else
build the timestamp column over `dates`, the `Futures_Price` column from
the per-day quote as plain `f"{price:.2f}"` (line 365, empty on a caught
exception), and the option columns from the pre-fetched history; finally
write one CSV. -/
def run_data_pull (selections : List String)
    (optionHistory : String → List (CalDate × ℚ))
    (futuresQuote : CalDate → Option ℚ)
    (dates : List CalDate) (isExactTargetFormat : Bool) (outputPath : String) :
    Except String OutTable × List String :=
  if selections.isEmpty then (.error "No options identified by strategy", [])
  else
    let timestamps := dates.map fmtMDY
    let futuresCol : Option (List String) :=
      if isExactTargetFormat then none
      else some (dates.map (fun d =>
        match futuresQuote d with
        | some p => format2dec p
        | none => ""))
    let optionCols := selections.map (fun sym =>
      (sym, timestamps.map (optionCellFor (optionHistory sym))))
    (.ok { timestamps := timestamps, futuresCol := futuresCol, optionCols := optionCols },
      [outputPath])

deriving instance DecidableEq for Except

/-- The CLI `main`'s top-level handler (lines 509-592): success returns 0,
any uncaught exception is logged and turned into exit code 1. -/
def mainExitCode (res : Except String OutTable) : ℕ :=
  match res with
  | .ok _ => 0
  | .error _ => 1

/-- The table a one-day run with no data produces (used by C1's witness). -/
def sampleRunTable : OutTable :=
  { timestamps := ["12/2/21"], futuresCol := some [""],
    optionCols := [("OHF2 C00278", [""])] }


/-! ## Output Validator (`src/output_validator.py`)

A table read from a reference-style CSV: the `timestamp` column of strings
followed by the price columns (`Futures_Price` and the option columns) in
header order, with blank/NaN cells as `none`.  `validate(generated)`
compares against the `expected` table loaded at construction; the
`accuracy_metrics` and `detailed_errors` sections read
`self.validation_results`, which still holds the *previous* call's results
(it is assigned only at the end of `validate`), so `validate` is modelled
as also taking the previous results. -/

/-- A dataframe as the validator sees it. -/
structure Table where
  tsCol : List String
  priceCols : List (String × List (Option ℚ))
  deriving Repr, DecidableEq

/-- `df.columns`: the header, `timestamp` first. -/
def colNames (t : Table) : List String := "timestamp" :: t.priceCols.map Prod.fst

/-- The option columns (everything but `timestamp` and `Futures_Price`). -/
def optionSymbols (t : Table) : List String :=
  (colNames t).filter (fun c => c ≠ "timestamp" ∧ c ≠ "Futures_Price")

/-- `df[name]` for a price column (first matching column, `[]` if absent). -/
def colData (t : Table) (name : String) : List (Option ℚ) :=
  ((t.priceCols.find? (fun pc => pc.1 = name)).map Prod.snd).getD []

/-- `_validate_columns` result (the fields later sections consume). -/
structure ColVal where
  missing : List String
  extra : List String
  orderOk : Bool
  score : ℚ
  deriving Repr

/-- `_validate_columns`: set differences and relative order of the common
columns; full marks only when nothing is missing, nothing extra and the
order matches. -/
def validateColumns (e g : Table) : ColVal :=
  let ec := colNames e
  let gc := colNames g
  let missing := ec.dedup.filter (fun c => !(gc.contains c))
  let extra := gc.dedup.filter (fun c => !(ec.contains c))
  let common := gc.filter (fun c => ec.contains c)
  let commonE := ec.filter (fun c => common.contains c)
  { missing := missing, extra := extra, orderOk := common = commonE,
    score := if missing.isEmpty ∧ extra.isEmpty ∧ common = commonE then 1 else 0 }

/-- `_validate_dates`: 1.0 when the timestamp lists agree in length and
content; the source's fallback expression
`len([m for m in mismatches if m == []]) / len(expected_dates)` always
evaluates to 0 because a mismatch entry is a dict, never `[]`. -/
def validateDates (e g : Table) : ℚ :=
  let ed := e.tsCol
  let gd := g.tsCol
  if ed = gd.take ed.length ∧ ed.length = gd.length then 1 else 0

/-- `_validate_symbols` result. -/
structure SymVal where
  missing : List String
  score : ℚ
  deriving Repr

/-- `_validate_symbols`: distinct matching symbols over the expected
symbol-list length (0 when the reference has no option columns). -/
def validateSymbols (e g : Table) : SymVal :=
  let es := optionSymbols e
  let gs := optionSymbols g
  let missing := es.dedup.filter (fun c => !(gs.contains c))
  let matching := es.dedup.filter (fun c => gs.contains c)
  { missing := missing,
    score := if es.isEmpty then 0 else (matching.length : ℚ) / (es.length : ℚ) }

/-- Position of the first `true` (`Series.idxmax` on a boolean series with
a 0-based range index). -/
def firstTrueIdx (l : List Bool) : Option ℕ := l.findIdx? id

/-- The source's `len(active) - 1 - active[::-1].idxmax()`: since pandas
slicing keeps the index labels, `idxmax` on the reversed series returns
the label of the *last* `true`, so the expression works out to the
distance of the last `true` from the end of the series — the position of
the first `true` of the reversed list. -/
def srcLastIdx (l : List Bool) : Option ℕ := l.reverse.findIdx? id

/-- One symbol's entry of `_validate_active_periods` (a missing symbol has
no `first_match`/`last_match` keys; `errors` read them with default
`True`). -/
structure PeriodEntry where
  name : String
  present : Bool
  firstMatch : Bool
  lastMatch : Bool
  score : ℚ
  deriving Repr

/-- `_validate_active_periods` for one expected option symbol. -/
def periodEntryFor (e g : Table) (s : String) : PeriodEntry :=
  if !((colNames g).contains s) then
    { name := s, present := false, firstMatch := true, lastMatch := true, score := 0 }
  else
    let ec := colData e s
    let gc := colData g s
    let m := min ec.length gc.length
    let ea := (ec.take m).map Option.isSome
    let ga := (gc.take m).map Option.isSome
    let ef := firstTrueIdx ea
    let el := srcLastIdx ea
    let gf := firstTrueIdx ga
    let gl := srcLastIdx ga
    let overlapScore : ℚ :=
      match ef, el, gf, gl with
      | some ef, some el, some gf, some gl =>
          let os : ℤ := max ef gf
          let oe : ℤ := min el gl
          if os ≤ oe then
            let overlapDays : ℤ := oe - os + 1
            let totalDays : ℤ := max ((el : ℤ) - ef + 1) ((gl : ℤ) - gf + 1)
            if 0 < totalDays then (overlapDays : ℚ) / (totalDays : ℚ) else 0
          else 0
      | _, _, _, _ => 0
    { name := s, present := true, firstMatch := ef = gf, lastMatch := el = gl,
      score := overlapScore }

/-- `_validate_active_periods`: all entries plus their mean score. -/
def validatePeriods (e g : Table) : List PeriodEntry × ℚ :=
  let entries := (optionSymbols e).map (periodEntryFor e g)
  (entries,
    if entries.isEmpty then 0
    else (entries.map (fun pe => pe.score)).sum / (entries.length : ℚ))

/-- The `(row index, value)` pairs of the non-null cells of an expected
column (`expected_col.dropna()` keeping the positional index). -/
def expValsOf (l : List (Option ℚ)) : List (ℕ × ℚ) :=
  l.enum.filterMap (fun pr => pr.2.map (fun v => (pr.1, v)))

/-- The `(expected, generated)` comparison pairs: expected non-null cells
whose row index exists in the generated frame and whose generated cell is
non-null. -/
def compsOf (g : Table) (gc : List (Option ℚ)) (ev : List (ℕ × ℚ)) :
    List (ℚ × ℚ) :=
  ev.filterMap (fun pr =>
    if pr.1 < g.tsCol.length then (gc[pr.1]?.bind id).map (fun gv => (pr.2, gv))
    else none)

/-- `_validate_values` for one expected symbol: `none` when the generated
table lacks the column (excluded from the mean), `some 0` when the
expected column has no values, otherwise the match rate within a $0.01
tolerance scaled by the capped non-null count ratio. -/
def valueScoreFor (e g : Table) (s : String) : Option ℚ :=
  if (colNames g).contains s then
    let ec := colData e s
    let gc := colData g s
    let expVals := expValsOf ec
    if expVals.isEmpty then some 0
    else
      let genCount := (gc.filterMap id).length
      let cr : ℚ := (genCount : ℚ) / (expVals.length : ℚ)
      let comps := compsOf g gc expVals
      let nmatch := (comps.filter (fun pr => |pr.1 - pr.2| ≤ 1 / 100)).length
      let vscore : ℚ :=
        if 0 < comps.length then (nmatch : ℚ) / (comps.length : ℚ) else 0
      some (vscore * min cr 1)
  else none

/-- `_validate_values`: the mean of the per-symbol scores. -/
def validateValues (e g : Table) : ℚ :=
  let scores := (optionSymbols e).filterMap (valueScoreFor e g)
  if scores.isEmpty then 0 else scores.sum / (scores.length : ℚ)

/-- The rows of a table, for the duplicate-row check. -/
def rowsOf (t : Table) : List (String × List (Option ℚ)) :=
  (List.range t.tsCol.length).map (fun i =>
    (t.tsCol.getD i "", t.priceCols.map (fun pc => pc.2.getD i none)))

/-- `_validate_structure`: shape, timestamp presence (always true in this
table model), no duplicate columns, no duplicate rows; score is the
fraction of passing checks. -/
def validateStructure (e g : Table) : ℚ :=
  let checks : List Bool :=
    [decide (e.tsCol.length = g.tsCol.length ∧ (colNames e).length = (colNames g).length),
     true,
     decide (colNames g).Nodup,
     decide (rowsOf g).Nodup]
  ((checks.count true : ℕ) : ℚ) / ((checks.length : ℕ) : ℚ)

/-- The result of one `validate` call (the fields its own sections and the
next call's stale-state reads consume). -/
structure ValResults where
  colVal : ColVal
  dateScore : ℚ
  symVal : SymVal
  periodEntries : List PeriodEntry
  periodScore : ℚ
  valueScore : ℚ
  structScore : ℚ
  overall : ℚ
  errors : List String

/-- `_collect_detailed_errors`: reads `self.validation_results`, i.e. the
*previous* call's results (`{}` on a fresh instance), and caps the list at
20 entries. -/
def collectErrors (prev : Option ValResults) : List String :=
  match prev with
  | none => []
  | some r =>
      ((r.colVal.missing.map (fun c => "Missing column: " ++ c)) ++
        (r.symVal.missing.map (fun s => "Missing option symbol: " ++ s)) ++
        ((r.periodEntries.map (fun pe =>
          (if !pe.firstMatch then [pe.name ++ " starts at wrong date"] else []) ++
            (if !pe.lastMatch then [pe.name ++ " ends at wrong date"] else []))).flatten)).take 20

/-- `OutputValidator.validate(generated)` against the `expected` reference
table, with `prev` the instance's previous validation results (`none` for
a fresh validator); `overall` is the weighted score of lines 418-435. -/
def validate (expected : Table) (prev : Option ValResults) (generated : Table) :
    ValResults :=
  let cv := validateColumns expected generated
  let ds := validateDates expected generated
  let sv := validateSymbols expected generated
  let pv := validatePeriods expected generated
  let vs := validateValues expected generated
  let ss := validateStructure expected generated
  { colVal := cv, dateScore := ds, symVal := sv, periodEntries := pv.1,
    periodScore := pv.2, valueScore := vs, structScore := ss,
    overall := 15 / 100 * cv.score + 15 / 100 * ds + 20 / 100 * sv.score +
      25 / 100 * pv.2 + 20 / 100 * vs + 5 / 100 * ss,
    errors := collectErrors prev }

/-- Whether a column's self-comparison period score is full: the first
active row must not come later than the source's (mis)computed last-index
value (see `srcLastIdx`); an all-empty column has no active rows at all
and scores 0. -/
def selfPeriodOk (l : List Bool) : Bool :=
  match firstTrueIdx l, srcLastIdx l with
  | some f, some lst => f ≤ lst
  | _, _ => false

/-- A reference-style table with one all-empty option column. -/
def emptyColTable : Table :=
  { tsCol := ["12/2/21"], priceCols := [("OHF2 C00278", [none])] }

/-- A reference-style table with one option column holding one value. -/
def oneRowTable : Table :=
  { tsCol := ["12/2/21"], priceCols := [("OHF2 C00278", [some 2])] }

/-! ## Supporting lemmas and claim theorems -/

lemma natDigitsAuxEq : ∀ fuel n : ℕ, n ≤ fuel → natDigitsAux fuel n = Nat.digits 10 n := by
  intro fuel
  induction fuel with
  | zero =>
      intro n hn
      have : n = 0 := Nat.le_zero.mp hn
      subst this
      simp [natDigitsAux]
  | succ f ih =>
      intro n hn
      cases n with
      | zero => simp [natDigitsAux]
      | succ m =>
          rw [show natDigitsAux (f + 1) (m + 1) =
                (m + 1) % 10 :: natDigitsAux f ((m + 1) / 10) from rfl]
          have hdiv : (m + 1) / 10 ≤ f := by
            have := Nat.div_lt_self (Nat.succ_pos m) (by norm_num : 1 < 10)
            omega
          rw [ih ((m + 1) / 10) hdiv,
            Nat.digits_def' (by norm_num : (1 : ℕ) < 10) (Nat.succ_pos m)]

lemma natStrDigits (n : ℕ) :
    natStr n = if n = 0 then ['0'] else ((Nat.digits 10 n).map Nat.digitChar).reverse := by
  unfold natStr
  rw [natDigitsAuxEq n n le_rfl]

lemma charToNatInj {c d : Char} (h : c.toNat = d.toNat) : c = d :=
  Char.ext (UInt32.ext h)

lemma upperAZBounds {c : Char} (h : isUpperAZ c = true) :
    65 ≤ c.toNat ∧ c.toNat ≤ 90 := by
  simp only [isUpperAZ, Bool.and_eq_true, decide_eq_true_eq] at h
  exact ⟨h.1, h.2⟩

lemma digitBounds {c : Char} (h : c.isDigit = true) :
    48 ≤ c.toNat ∧ c.toNat ≤ 57 := by
  simp only [Char.isDigit, Bool.and_eq_true, decide_eq_true_eq] at h
  exact h

lemma digitCharRound {c : Char} (h : c.isDigit = true) :
    Nat.digitChar (c.toNat - 48) = c := by
  obtain ⟨h1, h2⟩ := digitBounds h
  set n := c.toNat with hn
  have hc : c.toNat = n := rfl
  clear_value n
  interval_cases n <;> exact charToNatInj (by rw [hc]; decide)

lemma spaceToNat {c : Char} (h : isSpaceChar c = true) : c.toNat ≤ 32 := by
  simp only [isSpaceChar, Bool.or_eq_true, decide_eq_true_eq] at h
  rcases h with ((((h | h) | h) | h) | h) | h <;> subst h <;> decide

lemma upperNotSpace {c : Char} (h : isUpperAZ c = true) : isSpaceChar c = false := by
  cases hs : isSpaceChar c
  · rfl
  · have h32 := spaceToNat hs
    have h65 := (upperAZBounds h).1
    omega

lemma digitNotSpace {c : Char} (h : c.isDigit = true) : isSpaceChar c = false := by
  cases hs : isSpaceChar c
  · rfl
  · have h32 := spaceToNat hs
    have h48 := (digitBounds h).1
    omega

lemma upperNotDigit {c : Char} (h : isUpperAZ c = true) : c.isDigit = false := by
  cases hd : c.isDigit
  · rfl
  · have h57 := (digitBounds hd).2
    have h65 := (upperAZBounds h).1
    omega

lemma codesUpper : ∀ c ∈ monthCodeChars, isUpperAZ c = true := by decide

lemma dropWhileRevEq (p : Char → Bool) (l : List Char)
    (h : ∀ c, l.getLast? = some c → p c = false) :
    (l.reverse.dropWhile p).reverse = l := by
  induction l using List.reverseRecOn with
  | nil => simp
  | append_singleton ys y _ =>
      have hy : p y = false := h y (by simp)
      simp [List.dropWhile_cons, hy]

lemma stripCharsEq (l : List Char)
    (hh : ∀ c ∈ l.head?, isSpaceChar c = false)
    (hl : ∀ c ∈ l.getLast?, isSpaceChar c = false) :
    stripChars l = l := by
  unfold stripChars
  have h1 : l.dropWhile isSpaceChar = l := by
    cases l with
    | nil => rfl
    | cons a t =>
        have := hh a (by simp)
        simp [List.dropWhile_cons, this]
  rw [h1]
  exact dropWhileRevEq _ _ (fun c hc => hl c (by simp [hc]))

lemma cpNotSpace {t : Char} (ht : t = 'C' ∨ t = 'P') : isSpaceChar t = false := by
  rcases ht with h | h <;> subst h <;> decide

lemma matchTailSpec {t : Char} {digits : List Char} (ht : t = 'C' ∨ t = 'P')
    (hd : digits ≠ []) (hdall : ∀ c ∈ digits, c.isDigit = true) :
    matchTail (' ' :: t :: digits) = some (t, digits) := by
  have hts : isSpaceChar t = false := cpNotSpace ht
  have hsp : isSpaceChar ' ' = true := by decide
  have hdrop : (t :: digits).dropWhile isSpaceChar = t :: digits := by
    simp [List.dropWhile_cons, hts]
  have hcp : (t = 'C' || t = 'P') = true := by
    rcases ht with h | h <;> subst h <;> decide
  have hne : digits.isEmpty = false := by
    cases digits with
    | nil => exact absurd rfl hd
    | cons a l => rfl
  have hall : digits.all Char.isDigit = true := by
    simp only [List.all_eq_true]
    exact hdall
  simp [matchTail, hsp, hdrop, matchTypeStrike, hcp, hne, hall]

lemma findSplitStep {acc : List Char} {c1 c2 : Char} {tl : List Char}
    (h2 : c2.isDigit = false) (h1 : isUpperAZ c1 = true) :
    findSplit acc (c1 :: c2 :: tl) = findSplit (acc ++ [c1]) (c2 :: tl) := by
  simp only [findSplit, h2, h1, Bool.and_false, Bool.false_and, if_false]
  simp

lemma findSplitBase {acc : List Char} {mc yc t : Char} {digits : List Char}
    (hacc : acc ≠ []) (hmc : mc ∈ monthCodeChars) (hyc : yc.isDigit = true)
    (ht : t = 'C' ∨ t = 'P') (hd : digits ≠ [])
    (hdall : ∀ c ∈ digits, c.isDigit = true) :
    findSplit acc (mc :: yc :: ' ' :: t :: digits) = some (acc, mc, yc, t, digits) := by
  have hcont : monthCodeChars.contains mc = true := by
    have := List.elem_eq_true_of_mem hmc
    simpa [List.contains] using this
  have hacc2 : (!acc.isEmpty) = true := by
    cases acc with
    | nil => exact absurd rfl hacc
    | cons a l => rfl
  simp only [findSplit, hacc2, hcont, hyc, Bool.and_self, Bool.true_and, if_true]
  rw [matchTailSpec ht hd hdall]

lemma findSplitSpec {mc yc t : Char} {digits : List Char}
    (hmc : mc ∈ monthCodeChars) (hyc : yc.isDigit = true)
    (ht : t = 'C' ∨ t = 'P') (hd : digits ≠ [])
    (hdall : ∀ c ∈ digits, c.isDigit = true) :
    ∀ (root acc : List Char), (∀ c ∈ root, isUpperAZ c = true) → acc ++ root ≠ [] →
      findSplit acc (root ++ mc :: yc :: ' ' :: t :: digits) =
        some (acc ++ root, mc, yc, t, digits) := by
  intro root
  induction root with
  | nil =>
      intro acc _ hne
      rw [List.nil_append, List.append_nil] at *
      exact findSplitBase hne hmc hyc ht hd hdall
  | cons r rs ih =>
      intro acc hroot hne
      have hr : isUpperAZ r = true := hroot r (by simp)
      have hrs : ∀ c ∈ rs, isUpperAZ c = true := fun c hc => hroot c (by simp [hc])
      have hnext : ∀ c2 tl2, rs ++ mc :: yc :: ' ' :: t :: digits = c2 :: tl2 →
          c2.isDigit = false := by
        intro c2 tl2 heq
        cases rs with
        | nil =>
            simp only [List.nil_append, List.cons.injEq] at heq
            rw [← heq.1]
            exact upperNotDigit (codesUpper mc hmc)
        | cons a l =>
            simp only [List.cons_append, List.cons.injEq] at heq
            rw [← heq.1]
            exact upperNotDigit (hrs a (by simp))
      cases hsplit : rs ++ mc :: yc :: ' ' :: t :: digits with
      | nil => simp at hsplit
      | cons c2 tl2 =>
          have : findSplit acc (r :: c2 :: tl2) = findSplit (acc ++ [r]) (c2 :: tl2) :=
            findSplitStep (hnext c2 tl2 hsplit) hr
          rw [List.cons_append, hsplit, this, ← hsplit]
          have := ih (acc ++ [r]) hrs (by simp)
          simpa using this

lemma digitsValOfDigits (l : List Char) :
    digitsVal l = Nat.ofDigits 10 ((l.map (fun c => c.toNat - 48)).reverse) := by
  induction l using List.reverseRecOn with
  | nil => simp [digitsVal, Nat.ofDigits]
  | append_singleton ys y ih =>
      have hfold : digitsVal (ys ++ [y]) = 10 * digitsVal ys + (y.toNat - 48) := by
        simp [digitsVal, List.foldl_append]
      rw [hfold, ih]
      simp [Nat.ofDigits_cons]
      ring

lemma natStrDigitsVal (digits : List Char) (hd : digits ≠ [])
    (hdall : ∀ c ∈ digits, c.isDigit = true)
    (hnz : digits.head? ≠ some '0' ∨ digits = ['0']) :
    natStr (digitsVal digits) = digits := by
  rcases hnz with hnz | rfl
  · obtain ⟨d0, ds, rfl⟩ := List.exists_cons_of_ne_nil hd
    have hd0 : d0.isDigit = true := hdall d0 (by simp)
    have hd0nz : d0.toNat - 48 ≠ 0 := by
      have hb := digitBounds hd0
      have : d0 ≠ '0' := by
        intro h
        exact hnz (by simp [h])
      have : d0.toNat ≠ 48 := by
        intro h
        exact this (charToNatInj (c := d0) (d := '0') h)
      omega
    set L := ((d0 :: ds).map (fun c => c.toNat - 48)).reverse with hL
    have hLne : L ≠ [] := by simp [hL]
    have hlt : ∀ x ∈ L, x < 10 := by
      intro x hx
      rw [hL, List.mem_reverse, List.mem_map] at hx
      obtain ⟨c, hc, rfl⟩ := hx
      have := digitBounds (hdall c hc)
      omega
    have hlast : L.getLast? = some (d0.toNat - 48) := by
      rw [hL, List.getLast?_reverse]
      simp
    have hlast2 : ∀ (h : L ≠ []), L.getLast h ≠ 0 := by
      intro h
      have heq := List.getLast?_eq_getLast_of_ne_nil h
      rw [hlast] at heq
      injection heq with heq2
      rw [← heq2]
      exact hd0nz
    have hofd := Nat.digits_ofDigits 10 (by norm_num) L hlt hlast2
    have hdg : Nat.digits 10 (digitsVal (d0 :: ds)) = L := by
      rw [digitsValOfDigits]
      exact hofd
    have hvalne : digitsVal (d0 :: ds) ≠ 0 := by
      intro h0
      rw [h0] at hdg
      simp only [Nat.digits_zero] at hdg
      exact hLne hdg.symm
    have hmap : (L.map Nat.digitChar).reverse = d0 :: ds := by
      rw [hL, List.map_reverse, List.reverse_reverse, List.map_map]
      have hcong : ∀ c ∈ d0 :: ds, (Nat.digitChar ∘ fun c => c.toNat - 48) c = id c :=
        fun c hc => digitCharRound (hdall c hc)
      rw [List.map_congr_left hcong, List.map_id]
    rw [natStrDigits, if_neg hvalne, hdg, hmap]
  · rfl

lemma monthCodeInv : ∀ mc ∈ monthCodeChars,
    monthOfCode mc = some ((monthOfCode mc).getD 0) ∧
      codeOfMonth ((monthOfCode mc).getD 0) = some mc := by decide

lemma yearCodeLast {yc : Char} (hyc : yc.isDigit = true) :
    (natStr (2020 + (yc.toNat - 48))).getLastD '0' = yc := by
  have hb := digitBounds hyc
  have hdg : Nat.digits 10 (2020 + (yc.toNat - 48)) = (yc.toNat - 48) :: [2, 0, 2] := by
    rw [Nat.digits_def' (by norm_num : (1 : ℕ) < 10) (by omega)]
    have h1 : (2020 + (yc.toNat - 48)) % 10 = yc.toNat - 48 := by omega
    have h2 : (2020 + (yc.toNat - 48)) / 10 = 202 := by omega
    rw [h1, h2]
    norm_num
  rw [natStrDigits, if_neg (by omega), hdg]
  simp only [List.map_cons, List.map_nil, List.reverse_cons, List.reverse_nil]
  simp [digitCharRound hyc]

/-- Claim C4 (amended): on every symbol matching the documented pattern
`ROOT + MONTH_CODE + YEAR_DIGIT , space , (C|P) + DIGITS` whose strike
digit string has no leading zero (or is exactly `"0"`) and whose digit
value survives the IEEE-double strike arithmetic
(`int(float(n)/100*100) == n`), `build_option_symbol` reconstructs the
symbol exactly from the components returned by `parse_option_symbol`. -/
theorem c4_roundtrip (root : List Char) (mc yc t : Char) (digits : List Char)
    (hwf : WellFormedParts root mc yc t digits)
    (hnz : digits.head? ≠ some '0' ∨ digits = ['0'])
    (hfl : strikeFloatRoundTrip (digitsVal digits)) :
    roundTripSymbol (symbolOfParts root mc yc t digits) =
      some (symbolOfParts root mc yc t digits) := by
  unfold strikeFloatRoundTrip at hfl
  obtain ⟨hr, hroot, hmc, hyc, ht, hd, hdall⟩ := hwf
  have hstrip : stripChars (symbolOfParts root mc yc t digits) =
      symbolOfParts root mc yc t digits := by
    apply stripCharsEq
    · intro c hc
      obtain ⟨r0, rt, rfl⟩ := List.exists_cons_of_ne_nil hr
      simp only [symbolOfParts, List.cons_append, List.head?_cons, Option.mem_def,
        Option.some.injEq] at hc
      rw [← hc]
      exact upperNotSpace (hroot r0 (by simp))
    · intro c hc
      obtain ⟨ds, e, rfl⟩ : ∃ ds e, digits = ds ++ [e] :=
        ⟨digits.dropLast, digits.getLast hd, (List.dropLast_append_getLast hd).symm⟩
      have hshape : symbolOfParts root mc yc t (ds ++ [e]) =
          (root ++ mc :: yc :: ' ' :: t :: ds) ++ [e] := by
        simp [symbolOfParts]
      rw [hshape, List.getLast?_concat] at hc
      simp only [Option.mem_def, Option.some.injEq] at hc
      rw [← hc]
      exact digitNotSpace (hdall e (by simp))
  unfold roundTripSymbol parse_option_symbol
  rw [hstrip]
  have hsplit := findSplitSpec hmc hyc ht hd hdall root [] hroot (by simpa using hr)
  rw [List.nil_append] at hsplit
  rw [show symbolOfParts root mc yc t digits = root ++ mc :: yc :: ' ' :: t :: digits from rfl,
    hsplit]
  dsimp only
  obtain ⟨hm1, hm2⟩ := monthCodeInv mc hmc
  rw [hm1]
  simp only [Option.some_bind]
  unfold build_option_symbol
  dsimp only
  rw [hm2]
  simp only [Option.some.injEq]
  rw [yearCodeLast hyc, hfl, natStrDigitsVal digits hd hdall hnz]
  simp [symbolOfParts]




lemma pyRoundIntCast (n : ℤ) : pyRound ((n : ℤ) : ℚ) = n := by
  unfold pyRound
  rw [Int.floor_intCast]
  norm_num

/-- Claim C4 (corrected): two counterexamples to the claim as stated.
The symbol `"OHF2 C025"` matches the documented pattern (its strike
digits `025` are DIGITS), yet `build_option_symbol (parse_option_symbol
s)` rebuilds the strike without the leading zero, yielding
`"OHF2 C25" ≠ s`; and `"XF1 C29"`, with no leading zero, rebuilds as
`"XF1 C28"` because `int(float(29)/100*100) == 28` in IEEE doubles. -/
theorem c4_counterexample :
    (WellFormedParts ['O', 'H'] 'F' '2' 'C' ['0', '2', '5'] ∧
      symbolOfParts ['O', 'H'] 'F' '2' 'C' ['0', '2', '5'] = "OHF2 C025".toList ∧
      roundTripSymbol ("OHF2 C025".toList) = some ("OHF2 C25".toList) ∧
      "OHF2 C25".toList ≠ "OHF2 C025".toList) ∧
    (WellFormedParts ['X'] 'F' '1' 'C' ['2', '9'] ∧
      ['2', '9'].head? ≠ some '0' ∧
      symbolOfParts ['X'] 'F' '1' 'C' ['2', '9'] = "XF1 C29".toList ∧
      roundTripSymbol ("XF1 C29".toList) = some ("XF1 C28".toList) ∧
      "XF1 C28".toList ≠ "XF1 C29".toList) := by
  set_option maxRecDepth 100000 in decide


/-- Witness for C4's amended theorem at the concrete symbol `"OHF2 C27800"`
(27800 survives the float arithmetic: `float(27800)/100` is exactly 278.0). -/
theorem c4_roundtrip_witness :
    roundTripSymbol (symbolOfParts ['O', 'H'] 'F' '2' 'C' ['2', '7', '8', '0', '0']) =
      some (symbolOfParts ['O', 'H'] 'F' '2' 'C' ['2', '7', '8', '0', '0']) :=
  c4_roundtrip ['O', 'H'] 'F' '2' 'C' ['2', '7', '8', '0', '0'] (by decide)
    (Or.inl (by decide)) (by set_option maxRecDepth 100000 in decide)


lemma fetchEmptyOfTiers (hasClient : Bool) (localRows : List Bar)
    {clientTier httpTier : TierResult}
    (hc : clientTier = .err ∨ clientTier = .rows [])
    (hh : httpTier = .err ∨ httpTier = .rows []) :
    fetch_futures_continuous false hasClient localRows clientTier httpTier = .ok [] ∧
      fetch_option_history false hasClient localRows clientTier httpTier = .ok [] := by
  rcases hc with rfl | rfl <;> rcases hh with rfl | rfl <;>
    cases hasClient <;>
    simp [fetch_futures_continuous, fetch_option_history]

/-- Claim C2: when the vendor client tier and the raw-HTTP tier each fail
or return no data, all three bridge operations still return normally —
`fetch_futures_continuous` and `fetch_option_history` return the empty
table and `get_spot_price` returns the 2.50 default — and never propagate
an exception. -/
theorem c2_bridge_never_raises (hasClient : Bool) (localRows : List Bar)
    (clientTier httpTier : TierResult)
    (localRowsFor : String → String → String → List Bar)
    (clientTierFor httpTierFor : String → String → String → TierResult)
    (underlying dateStr : String)
    (hc : clientTier = .err ∨ clientTier = .rows [])
    (hh : httpTier = .err ∨ httpTier = .rows [])
    (hcf : ∀ s a b, clientTierFor s a b = .err ∨ clientTierFor s a b = .rows [])
    (hhf : ∀ s a b, httpTierFor s a b = .err ∨ httpTierFor s a b = .rows []) :
    fetch_futures_continuous false hasClient localRows clientTier httpTier = .ok [] ∧
      fetch_option_history false hasClient localRows clientTier httpTier = .ok [] ∧
      get_spot_price false hasClient localRowsFor clientTierFor httpTierFor
        underlying dateStr = .ok (5 / 2) := by
  obtain ⟨h1, h2⟩ := fetchEmptyOfTiers hasClient localRows hc hh
  refine ⟨h1, h2, ?_⟩
  unfold get_spot_price
  dsimp only
  have h3 := (fetchEmptyOfTiers hasClient
    (localRowsFor (spotSymbolToUse underlying) dateStr dateStr)
    (hcf (spotSymbolToUse underlying) dateStr dateStr)
    (hhf (spotSymbolToUse underlying) dateStr dateStr)).1
  rw [h3]

/-- Witness for C2 at a concrete configuration (client present, both tiers
raising, spot request for `"HO"`). -/
theorem c2_bridge_never_raises_witness :
    fetch_futures_continuous false true [] .err .err = .ok [] ∧
      fetch_option_history false true [] .err .err = .ok [] ∧
      get_spot_price false true (fun _ _ _ => []) (fun _ _ _ => .err)
        (fun _ _ _ => .err) "HO" "2021-12-02" = .ok (5 / 2) :=
  c2_bridge_never_raises true [] .err .err (fun _ _ _ => []) (fun _ _ _ => .err)
    (fun _ _ _ => .err) "HO" "2021-12-02" (Or.inl rfl) (Or.inl rfl)
    (fun _ _ _ => Or.inl rfl) (fun _ _ _ => Or.inl rfl)

/-- Claim C3 (corrected): counterexample to the claim as stated.  The
explicit OH contract `'OHF2'` is an HO/OH input per the claim, but
`get_spot_price` does not map it to the continuous `'HO'` series: the
mapping keeps `'OHF2'` (it only remaps strings starting with `'HO'` or
equal to `'OH'`), and the fetch then treats `'OHF2'` as an explicit
contract requested raw, not as the continuous series. -/
theorem c3_counterexample :
    spotSymbolToUse "OHF2" = "OHF2" ∧ "OHF2" ≠ "HO" ∧
      isExplicitContract "OHF2" = true ∧
      clientRequestSeries (spotSymbolToUse "OHF2") = ("OHF2", false) := by
  refine ⟨by decide, by decide, by decide, by decide⟩

/-- Claim C3 (amended): for every underlying starting with `'HO'` (the bare
root and explicit HO contracts) or exactly `'OH'`, `get_spot_price` maps
the input to the continuous `'HO'` root, delegates to
`fetch_futures_continuous` for the single requested day, and returns the
day's close when rows come back, or 2.50 when nothing is found. -/
theorem c3_spot_price_ho (useLocalFile hasClient : Bool)
    (localRowsFor : String → String → String → List Bar)
    (clientTierFor httpTierFor : String → String → String → TierResult)
    (underlying dateStr : String)
    (hu : pyStartsWith underlying "HO" = true ∨ underlying = "OH") :
    spotSymbolToUse underlying = "HO" ∧
      get_spot_price useLocalFile hasClient localRowsFor clientTierFor httpTierFor
          underlying dateStr =
        (match fetch_futures_continuous useLocalFile hasClient
            (localRowsFor "HO" dateStr dateStr) (clientTierFor "HO" dateStr dateStr)
            (httpTierFor "HO" dateStr dateStr) with
         | .ok (b :: _) => .ok b.closePx
         | .ok [] => .ok (5 / 2)
         | .error e => .error e) := by
  have hmap : spotSymbolToUse underlying = "HO" := by
    unfold spotSymbolToUse
    rcases hu with h | rfl
    · rw [h]
      simp
    · simp
  refine ⟨hmap, ?_⟩
  unfold get_spot_price
  dsimp only
  rw [hmap]

/-- Witness for C3's amended theorem: the explicit HO contract `'HOF2'` on
a day whose single-day fetch returns one row closes at that row's price. -/
theorem c3_spot_price_ho_witness :
    spotSymbolToUse "HOF2" = "HO" ∧
      get_spot_price false true (fun _ _ _ => []) (fun _ _ _ => .err)
          (fun _ _ _ => .rows []) "HOF2" "2021-12-02" =
        (match fetch_futures_continuous false true [] .err (.rows []) with
         | .ok (b :: _) => .ok b.closePx
         | .ok [] => .ok (5 / 2)
         | .error e => .error e) :=
  c3_spot_price_ho false true (fun _ _ _ => []) (fun _ _ _ => .err)
    (fun _ _ _ => .rows []) "HOF2" "2021-12-02" (Or.inl (by decide))


lemma digitCharVal {d : ℕ} (hd : d < 10) : (Nat.digitChar d).toNat - 48 = d := by
  interval_cases d <;> decide

lemma digitsValNatStr (n : ℕ) : digitsVal (natStr n) = n := by
  rcases Nat.eq_zero_or_pos n with rfl | hn
  · decide
  · rw [natStrDigits, if_neg hn.ne.symm, digitsValOfDigits, List.map_reverse,
      List.reverse_reverse, List.map_map]
    have hcong : ∀ d ∈ Nat.digits 10 n, ((fun c => c.toNat - 48) ∘ Nat.digitChar) d = id d :=
      fun d hd => digitCharVal (Nat.digits_lt_base (by norm_num) hd)
    rw [List.map_congr_left hcong, List.map_id, Nat.ofDigits_digits]

lemma digitsValReplicateZero (k : ℕ) (ds : List Char) :
    digitsVal (List.replicate k '0' ++ ds) = digitsVal ds := by
  induction k with
  | zero => simp
  | succ m ih =>
      rw [List.replicate_succ, List.cons_append]
      show digitsVal (List.replicate m '0' ++ ds) = digitsVal ds
      exact ih

lemma natStrLen {n w : ℕ} (hn : n < 10 ^ w) (hw : 1 ≤ w) : (natStr n).length ≤ w := by
  rcases Nat.eq_zero_or_pos n with rfl | hpos
  · simpa [natStr] using hw
  · rw [natStrDigits, if_neg hpos.ne.symm]
    simp only [List.length_reverse, List.length_map]
    rw [Nat.digits_len 10 n (by norm_num) hpos.ne.symm]
    have := (Nat.lt_pow_iff_log_lt (by norm_num : 1 < 10) hpos.ne.symm).mp hn
    omega

/-- Claim C6 (code bug): `src/futures_manager.py` line 17 imports
`get_first_trading_day` from `utils.date_utils`, but that module defines
no such name (it defines `get_first_trading_day_of_month`), so importing
the Futures Contract Manager raises `ImportError` and
`FuturesManager.get_roll_date` can never run. -/
theorem c6_missing_import :
    "get_first_trading_day" ∈ futuresManagerDateUtilsImports ∧
      "get_first_trading_day" ∉ dateUtilsDefinedNames ∧
      "get_first_trading_day_of_month" ∈ dateUtilsDefinedNames := by
  refine ⟨by decide, by decide, by decide⟩

/-- Claim C8: the Options Selection Manager builds the output-column
symbol as the underlying contract, a space, the option-type letter and
`round(strike × 100)` zero-padded to five digits; the numeric suffix's
value is exactly `round(strike × 100)`, not `strike × 10000`. -/
theorem c8_symbol_encoding (c t : List Char) (strike : ℚ)
    (h0 : 0 ≤ pyRound (strike * 100)) (h5 : pyRound (strike * 100) < 100000) :
    omBuildOptionSymbol c strike t =
        c ++ ' ' :: t ++ padZeros 5 (natStr (pyRound (strike * 100)).toNat) ∧
      (padZeros 5 (natStr (pyRound (strike * 100)).toNat)).length = 5 ∧
      digitsVal (padZeros 5 (natStr (pyRound (strike * 100)).toNat)) =
        (pyRound (strike * 100)).toNat := by
  set n := (pyRound (strike * 100)).toNat with hn
  have hlen : (natStr n).length ≤ 5 := by
    apply natStrLen _ (by norm_num)
    have : (n : ℤ) < 100000 := by omega
    exact_mod_cast this
  refine ⟨?_, ?_, ?_⟩
  · unfold omBuildOptionSymbol fmtZeroPad5
    dsimp only
    rw [if_neg (by omega)]
  · unfold padZeros
    simp only [List.length_append, List.length_replicate]
    omega
  · unfold padZeros
    rw [digitsValReplicateZero, digitsValNatStr]

/-- Witness for C8 at the claim's example: a \$2.78 strike call on `OHF2`
yields `"OHF2 C00278"`, not the `"OHF2 C27800"` of the `/10000` wire
convention. -/
theorem c8_symbol_encoding_witness :
    omBuildOptionSymbol "OHF2".toList (278 / 100) ['C'] = "OHF2 C00278".toList ∧
      "OHF2 C00278".toList ≠ "OHF2 C27800".toList := by
  have hr : pyRound ((278 / 100 : ℚ) * 100) = 278 := by
    rw [show (278 / 100 : ℚ) * 100 = ((278 : ℤ) : ℚ) by norm_num, pyRoundIntCast]
  have h := c8_symbol_encoding "OHF2".toList ['C'] (278 / 100)
    (by rw [hr]; norm_num) (by rw [hr]; norm_num)
  refine ⟨?_, by decide⟩
  rw [h.1]
  rw [show ((pyRound ((278 / 100 : ℚ) * 100)).toNat) = 278 from by rw [hr]; rfl]
  decide

/-- Claim C9: `find_target_delta_strike` with an empty candidate list does
not raise and returns the spot price paired with a delta of 0. -/
theorem c9_empty_strikes (r S T vol target : ℝ) (optionType : String) :
    find_target_delta_strike r S [] T vol target optionType = (S, 0) := rfl


lemma format2decVal (q : ℚ) (n : ℕ) (h : q * 100 = (n : ℚ)) :
    format2dec q = ⟨natStr (n / 100) ++ '.' :: padZeros 2 (natStr (n % 100))⟩ := by
  unfold format2dec
  rw [h, show ((n : ℕ) : ℚ) = (((n : ℕ) : ℤ) : ℚ) from by norm_num, pyRoundIntCast]
  dsimp only
  rw [if_neg (by omega)]
  simp [Int.natAbs_ofNat]

/-- Claim C10: when the strategy identifies no options, `run_data_pull`
raises `RuntimeError('No options identified by strategy')` before any CSV
is written, and the top-level handler maps that to exit code 1. -/
theorem c10_empty_selection (optionHistory : String → List (CalDate × ℚ))
    (futuresQuote : CalDate → Option ℚ) (dates : List CalDate)
    (isExactTargetFormat : Bool) (outputPath : String) :
    run_data_pull [] optionHistory futuresQuote dates isExactTargetFormat outputPath =
        (.error "No options identified by strategy", []) ∧
      mainExitCode (run_data_pull [] optionHistory futuresQuote dates
          isExactTargetFormat outputPath).1 = 1 :=
  ⟨rfl, rfl⟩

/-- Claim C1 (corrected): counterexample to the claim as stated.  In a
one-day live run whose front-month quote is 2.50, the `Futures_Price`
cell is written as `"2.50"` — two decimals with the trailing zero kept —
which is neither empty nor the trailing-zero-stripped rendering `"2.5"`
the claim requires of every price cell. -/
theorem c1_counterexample :
    run_data_pull ["OHF2 C00278"] (fun _ => []) (fun _ => some (5 / 2))
        [⟨2021, 12, 2⟩] false "out.csv" =
      (.ok { timestamps := ["12/2/21"], futuresCol := some ["2.50"],
             optionCols := [("OHF2 C00278", [""])] }, ["out.csv"]) ∧
      stripCell (format2dec (5 / 2)) = "2.5" ∧ ("2.50" : String) ≠ "2.5" ∧
      ("2.50" : String) ≠ "" := by
  have h250 : format2dec (5 / 2 : ℚ) = "2.50" := by
    rw [format2decVal (5 / 2) 250 (by norm_num)]
    decide
  refine ⟨?_, ?_, by decide, by decide⟩
  · unfold run_data_pull
    dsimp only
    rw [h250]
    decide
  · rw [h250]
    decide

/-- Claim C1 (amended): in every non-demo run that produces a table, each
`timestamp` cell is its row's date rendered `M/D/YY` with month and day
unpadded; each option-column cell is empty or a 2-decimal price with
trailing zeros (and a dangling point) stripped; each `Futures_Price` cell
is empty or a plain 2-decimal price with trailing zeros kept. -/
theorem c1_output_formats (selections : List String)
    (optionHistory : String → List (CalDate × ℚ))
    (futuresQuote : CalDate → Option ℚ) (dates : List CalDate)
    (isExactTargetFormat : Bool) (outputPath : String) (tbl : OutTable)
    (ws : List String)
    (hres : run_data_pull selections optionHistory futuresQuote dates
        isExactTargetFormat outputPath = (.ok tbl, ws)) :
    tbl.timestamps = dates.map fmtMDY ∧
      (∀ col ∈ tbl.futuresCol, ∀ cell ∈ col,
        cell = "" ∨ ∃ p : ℚ, cell = format2dec p) ∧
      (∀ pr ∈ tbl.optionCols, ∀ cell ∈ pr.2,
        cell = "" ∨ ∃ p : ℚ, cell = stripCell (format2dec p)) := by
  unfold run_data_pull at hres
  cases selections with
  | nil => simp at hres
  | cons s0 rest =>
      rw [if_neg (by simp)] at hres
      dsimp only at hres
      have h1 := congrArg Prod.fst hres
      dsimp only at h1
      have htbl := (Except.ok.inj h1).symm
      subst htbl
      refine ⟨rfl, ?_, ?_⟩
      · intro col hcol cell hcell
        cases isExactTargetFormat with
        | true => simp at hcol
        | false =>
            simp only [if_neg Bool.false_ne_true, Option.mem_def,
              Option.some.injEq] at hcol
            rw [← hcol] at hcell
            obtain ⟨d, -, hd⟩ := List.mem_map.mp hcell
            cases hq : futuresQuote d with
            | none => left; rw [← hd, hq]
            | some p => right; exact ⟨p, by rw [← hd, hq]⟩
      · intro pr hpr cell hcell
        obtain ⟨sym, -, hsym⟩ := List.mem_map.mp hpr
        rw [← hsym] at hcell
        obtain ⟨ts, -, hts⟩ := List.mem_map.mp hcell
        unfold optionCellFor at hts
        cases hg : ((optionHistory sym).filter (fun pr => fmtMDY pr.1 = ts)).getLast? with
        | none => left; rw [← hts, hg]
        | some pr2 => right; exact ⟨pr2.2, by rw [← hts, hg]⟩

/-- Witness for C1's amended theorem on a concrete one-day run. -/
theorem c1_output_formats_witness :
    run_data_pull ["OHF2 C00278"] (fun _ => []) (fun _ => none)
        [⟨2021, 12, 2⟩] false "o.csv" = (.ok sampleRunTable, ["o.csv"]) ∧
      (sampleRunTable.timestamps = ([⟨2021, 12, 2⟩] : List CalDate).map fmtMDY ∧
        (∀ col ∈ sampleRunTable.futuresCol, ∀ cell ∈ col,
          cell = "" ∨ ∃ p : ℚ, cell = format2dec p) ∧
        (∀ pr ∈ sampleRunTable.optionCols, ∀ cell ∈ pr.2,
          cell = "" ∨ ∃ p : ℚ, cell = stripCell (format2dec p))) :=
  ⟨by decide, c1_output_formats ["OHF2 C00278"] (fun _ => []) (fun _ => none)
    [⟨2021, 12, 2⟩] false "o.csv" sampleRunTable ["o.csv"] (by decide)⟩




open MeasureTheory ProbabilityTheory

lemma gaussianPDFRealEven (x : ℝ) :
    gaussianPDFReal 0 1 (-x) = gaussianPDFReal 0 1 x := by
  unfold gaussianPDFReal
  rw [show ((-x) - (0 : ℝ)) ^ 2 = (x - 0) ^ 2 by ring]

lemma gaussianIntegrableOn (s : Set ℝ) :
    IntegrableOn (gaussianPDFReal 0 1) s := by
  exact (integrable_gaussianPDFReal 0 1).integrableOn

lemma normCDF_mono {a b : ℝ} (h : a ≤ b) : normCDF a ≤ normCDF b := by
  unfold normCDF
  apply setIntegral_mono_set (gaussianIntegrableOn _)
  · filter_upwards with x using gaussianPDFReal_nonneg 0 1 x
  · exact HasSubset.Subset.eventuallyLE (Set.Iic_subset_Iic.mpr h)

lemma normCDF_split {a b : ℝ} (h : a ≤ b) :
    normCDF b = normCDF a + ∫ x in Set.Ioc a b, gaussianPDFReal 0 1 x := by
  unfold normCDF
  rw [← Set.Iic_union_Ioc_eq_Iic h,
    setIntegral_union (Set.Iic_disjoint_Ioc le_rfl) measurableSet_Ioc
      (gaussianIntegrableOn _) (gaussianIntegrableOn _)]

lemma normCDF_strictMono {a b : ℝ} (h : a < b) : normCDF a < normCDF b := by
  have hpos : 0 < ∫ x in Set.Ioc a b, gaussianPDFReal 0 1 x := by
    rw [setIntegral_pos_iff_support_of_nonneg_ae
      (by filter_upwards with x using gaussianPDFReal_nonneg 0 1 x)
      (gaussianIntegrableOn _)]
    have hsupp : Function.support (gaussianPDFReal 0 1) = Set.univ := by
      ext x
      simp only [Function.mem_support, Set.mem_univ, iff_true]
      exact (gaussianPDFReal_pos 0 1 x one_ne_zero).ne'
    rw [hsupp, Set.univ_inter, Real.volume_Ioc]
    exact ENNReal.ofReal_pos.mpr (by linarith)
  have hsplit := normCDF_split h.le
  linarith

lemma normCDF_zero : normCDF 0 = 1 / 2 := by
  have htotal : ∫ x, gaussianPDFReal 0 1 x = 1 :=
    integral_gaussianPDFReal_eq_one 0 one_ne_zero
  have hsplit : (∫ x, gaussianPDFReal 0 1 x) =
      (∫ x in Set.Iic 0, gaussianPDFReal 0 1 x) +
        ∫ x in Set.Ioi 0, gaussianPDFReal 0 1 x := by
    rw [← setIntegral_union (Set.Iic_disjoint_Ioi le_rfl) measurableSet_Ioi
      (gaussianIntegrableOn _) (gaussianIntegrableOn _), Set.Iic_union_Ioi,
      setIntegral_univ]
  have hneg : (∫ x in Set.Ioi (0 : ℝ), gaussianPDFReal 0 1 x) =
      ∫ x in Set.Iic 0, gaussianPDFReal 0 1 x := by
    rw [show Set.Ioi (0 : ℝ) = Set.Ioi (-0) by norm_num,
      ← integral_comp_neg_Iic 0 (gaussianPDFReal 0 1)]
    congr 1
    funext x
    exact gaussianPDFRealEven x
  unfold normCDF
  rw [hsplit, hneg] at htotal
  linarith

lemma normCDF_le_half {x : ℝ} (h : x ≤ 0) : normCDF x ≤ 1 / 2 :=
  normCDF_zero ▸ normCDF_mono h

lemma half_lt_normCDF {x : ℝ} (h : 0 < x) : 1 / 2 < normCDF x :=
  normCDF_zero ▸ normCDF_strictMono h

lemma calculate_delta_call (r S K T vol : ℝ) (hS : 0 < S) (hT : 0 < T)
    (hv : 0 < vol) :
    calculate_delta r S K T vol "call" =
      normCDF ((Real.log (S / K) + (r + vol ^ 2 / 2) * T) / (vol * Real.sqrt T)) := by
  unfold calculate_delta
  rw [if_neg (not_le.mpr hS), if_neg (not_le.mpr hT)]
  dsimp only
  rw [if_neg (not_le.mpr hv), if_pos (by decide : pyLower "call" = "call")]

/-- Claim C5 (corrected): counterexample to the claim as stated.  With the
default rate r = 0.05, S = 2.5, T = 1, σ = 0.3 and the out-of-the-money
strikes K₁ = 2.6 < K₂ = 2.7 (both above S), the call delta at K₁ exceeds
0.5, because d1 = (ln(S/K₁) + (r + σ²/2)T)/(σ√T) > 0 whenever
ln(K₁/S) < (r + σ²/2)T.  So `delta(K₁) ≤ 0.5` fails for OTM strikes close
to the money. -/
theorem c5_counterexample :
    (0 : ℝ) < 5 / 2 ∧ (0 : ℝ) < 1 ∧ (0 : ℝ) < 3 / 10 ∧
      (5 / 2 : ℝ) < 13 / 5 ∧ (13 / 5 : ℝ) < 27 / 10 ∧
      1 / 2 < calculate_delta (1 / 20) (5 / 2) (13 / 5) 1 (3 / 10) "call" := by
  refine ⟨by norm_num, by norm_num, by norm_num, by norm_num, by norm_num, ?_⟩
  rw [calculate_delta_call (1 / 20) (5 / 2) (13 / 5) 1 (3 / 10)
    (by norm_num) (by norm_num) (by norm_num)]
  apply half_lt_normCDF
  rw [Real.sqrt_one]
  apply div_pos ?_ (by norm_num)
  have hlog : Real.log ((5 / 2 : ℝ) / (13 / 5)) = -Real.log (26 / 25) := by
    rw [show ((5 / 2 : ℝ) / (13 / 5)) = ((26 / 25 : ℝ))⁻¹ by norm_num, Real.log_inv]
  have hexp : Real.log ((26 : ℝ) / 25) < 19 / 200 := by
    rw [Real.log_lt_iff_lt_exp (by norm_num)]
    have h1 := Real.add_one_le_exp (19 / 200 : ℝ)
    linarith
  have hc : ((1 : ℝ) / 20 + (3 / 10) ^ 2 / 2) * 1 = 19 / 200 := by norm_num
  rw [hlog, hc]
  linarith

/-- Claim C5 (amended): for S, T, σ > 0 and strikes 0 < K₁ ≤ K₂, the call
delta is monotonically non-increasing in the strike; and the 0.5 bound
holds for a strike K₁ precisely when ln(K₁/S) is at least (r + σ²/2)·T
(i.e. d1 ≤ 0) — not for every strike above the spot. -/
theorem c5_call_delta (r S K₁ K₂ T vol : ℝ) (hS : 0 < S) (hT : 0 < T)
    (hv : 0 < vol) (hK1 : 0 < K₁) (hK : K₁ ≤ K₂) :
    calculate_delta r S K₂ T vol "call" ≤ calculate_delta r S K₁ T vol "call" ∧
      ((r + vol ^ 2 / 2) * T ≤ Real.log (K₁ / S) →
        calculate_delta r S K₁ T vol "call" ≤ 1 / 2) := by
  rw [calculate_delta_call r S K₁ T vol hS hT hv,
    calculate_delta_call r S K₂ T vol hS hT hv]
  have hden : 0 < vol * Real.sqrt T := mul_pos hv (Real.sqrt_pos.mpr hT)
  constructor
  · apply normCDF_mono
    gcongr
    exact div_pos hS (lt_of_lt_of_le hK1 hK)
  · intro hb
    apply normCDF_le_half
    have hlog : Real.log (S / K₁) = -Real.log (K₁ / S) := by
      rw [show S / K₁ = (K₁ / S)⁻¹ by rw [inv_div], Real.log_inv]
    apply div_nonpos_of_nonpos_of_nonneg ?_ hden.le
    rw [hlog]
    linarith

/-- Witness for C5's amended theorem: strikes 3 < 4 above S = 2.5 with
r = 0.05, T = 1, σ = 0.3; here ln(K₁/S) = ln(1.2) ≥ 0.095 = (r + σ²/2)T,
so both the monotonicity and the 0.5 bound hold. -/
theorem c5_call_delta_witness :
    calculate_delta (1 / 20) (5 / 2) 4 1 (3 / 10) "call" ≤
        calculate_delta (1 / 20) (5 / 2) 3 1 (3 / 10) "call" ∧
      calculate_delta (1 / 20) (5 / 2) 3 1 (3 / 10) "call" ≤ 1 / 2 := by
  have h := c5_call_delta (1 / 20) (5 / 2) 3 4 1 (3 / 10) (by norm_num)
    (by norm_num) (by norm_num) (by norm_num) (by norm_num)
  refine ⟨h.1, h.2 ?_⟩
  have hc : ((1 : ℝ) / 20 + (3 / 10) ^ 2 / 2) * 1 = 19 / 200 := by norm_num
  rw [hc, show (3 : ℝ) / (5 / 2) = 6 / 5 by norm_num,
    Real.le_log_iff_exp_le (by norm_num)]
  have hneg := Real.add_one_le_exp (-(19 / 200) : ℝ)
  have hlow : (181 / 200 : ℝ) ≤ Real.exp (-(19 / 200)) := by linarith
  have hpos : (0 : ℝ) < 181 / 200 := by norm_num
  have hinv : Real.exp (19 / 200 : ℝ) = (Real.exp (-(19 / 200)))⁻¹ := by
    rw [Real.exp_neg, inv_inv]
  rw [hinv]
  calc (Real.exp (-(19 / 200)))⁻¹ ≤ (181 / 200 : ℝ)⁻¹ := by
        exact inv_anti₀ hpos hlow
    _ ≤ 6 / 5 := by norm_num

/-- A list whose entries are all 1 sums to its length. -/
theorem sumAllOnes : ∀ l : List ℚ, (∀ x ∈ l, x = 1) → l.sum = (l.length : ℚ)
  | [], _ => by simp
  | a :: l, h => by
    rw [List.sum_cons, h a (List.mem_cons_self a l),
      sumAllOnes l (fun x hx => h x (List.mem_cons_of_mem a hx))]
    simp only [List.length_cons]
    push_cast
    ring

/-- `filterMap` by an everywhere-`some` function is a `map`. -/
theorem filterMapCongrMap {α β : Type} (f : α → Option β) (g : α → β) :
    ∀ l : List α, (∀ x ∈ l, f x = some (g x)) → l.filterMap f = l.map g
  | [], _ => rfl
  | a :: l, h => by
    rw [List.filterMap_cons_some (h a (List.mem_cons_self a l)), List.map_cons,
      filterMapCongrMap f g l (fun x hx => h x (List.mem_cons_of_mem a hx))]

/-- The indexed non-null extraction keeps exactly the non-null cells. -/
theorem enumFromFilterMapLen : ∀ (k : ℕ) (l : List (Option ℚ)),
    ((l.enumFrom k).filterMap (fun pr => pr.2.map (fun v => (pr.1, v)))).length
      = (l.filterMap id).length
  | _, [] => rfl
  | k, none :: l => by
    simp only [List.enumFrom_cons, List.filterMap_cons, Option.map_none', id]
    exact enumFromFilterMapLen (k + 1) l
  | k, some v :: l => by
    simp only [List.enumFrom_cons, List.filterMap_cons, Option.map_some', id,
      List.length_cons]
    exact congrArg (· + 1) (enumFromFilterMapLen (k + 1) l)

/-- `expValsOf` has as many entries as the column has non-null cells. -/
theorem expValsOfLen (l : List (Option ℚ)) :
    (expValsOf l).length = (l.filterMap id).length := by
  unfold expValsOf
  exact enumFromFilterMapLen 0 l

/-- Every entry of `expValsOf` points back at its non-null cell. -/
theorem expValsOfMem {l : List (Option ℚ)} {i : ℕ} {v : ℚ}
    (h : (i, v) ∈ expValsOf l) : l[i]? = some (some v) := by
  unfold expValsOf at h
  rw [List.mem_filterMap] at h
  obtain ⟨⟨j, o⟩, hmem, heq⟩ := h
  cases o with
  | none => simp at heq
  | some w =>
    simp only [Option.map_some', Option.some.injEq, Prod.mk.injEq] at heq
    obtain ⟨rfl, rfl⟩ := heq
    exact List.mk_mem_enum_iff_getElem?.mp hmem

/-- A column with a non-null cell has a non-empty `expValsOf`. -/
theorem expValsOfNeNil {l : List (Option ℚ)} {v : Option ℚ} (hv : v ∈ l)
    (hvs : v.isSome = true) : expValsOf l ≠ [] := by
  obtain ⟨x, rfl⟩ := Option.isSome_iff_exists.mp hvs
  obtain ⟨i, hi, hget⟩ := List.getElem_of_mem hv
  have hq : l[i]? = some (some x) := List.getElem?_eq_some_iff.mpr ⟨hi, hget⟩
  have hmem : (i, x) ∈ expValsOf l := by
    unfold expValsOf
    rw [List.mem_filterMap]
    exact ⟨(i, some x), List.mk_mem_enum_iff_getElem?.mpr hq, rfl⟩
  exact List.ne_nil_of_mem hmem

/-- A column whose boolean activity series passes `selfPeriodOk` has at
least one non-null cell. -/
theorem existsSomeOfSelfPeriodOk {L : List (Option ℚ)}
    (h : selfPeriodOk (L.map Option.isSome) = true) :
    ∃ v ∈ L, v.isSome = true := by
  unfold selfPeriodOk at h
  cases hf : firstTrueIdx (L.map Option.isSome) with
  | none =>
    cases hl : srcLastIdx (L.map Option.isSome) with
    | none => rw [hf, hl] at h; simp at h
    | some lst => rw [hf, hl] at h; simp at h
  | some f =>
    have hf2 : (L.map Option.isSome).findIdx? id = some f := hf
    rcases List.findIdx?_eq_some_iff_getElem.mp hf2 with ⟨hlt, hp, -⟩
    have hmem : (L.map Option.isSome)[f] ∈ L.map Option.isSome :=
      List.getElem_mem hlt
    have htrue : (L.map Option.isSome)[f] = true := by simpa using hp
    rw [htrue] at hmem
    rcases List.mem_map.mp hmem with ⟨v, hv, hiso⟩
    exact ⟨v, hv, hiso⟩

/-- The column an option symbol of the header names is one of the table's
price columns. -/
theorem colDataEq (t : Table) (s : String) (hs : s ∈ optionSymbols t) :
    ∃ pc ∈ t.priceCols, colData t s = pc.2 := by
  unfold optionSymbols at hs
  have hmem := (List.mem_filter.mp hs).1
  have hp := (List.mem_filter.mp hs).2
  have hne2 : s ≠ "timestamp" := (of_decide_eq_true hp).1
  have hmem2 : s ∈ t.priceCols.map Prod.fst := by
    unfold colNames at hmem
    rcases List.mem_cons.mp hmem with h | h
    · exact absurd h hne2
    · exact h
  obtain ⟨pc, hpc, hfst⟩ := List.mem_map.mp hmem2
  cases hfind : t.priceCols.find? (fun pc2 => pc2.1 = s) with
  | none =>
    rw [List.find?_eq_none] at hfind
    exact absurd (decide_eq_true hfst) (hfind pc hpc)
  | some pc2 =>
    refine ⟨pc2, List.mem_of_find?_eq_some hfind, ?_⟩
    unfold colData
    rw [hfind]
    rfl

/-- `_validate_columns` gives full marks to a table compared with itself. -/
theorem validateColumnsSelf (t : Table) : (validateColumns t t).score = 1 := by
  have hnil : (colNames t).dedup.filter (fun c => !((colNames t).contains c)) = [] := by
    rw [List.filter_eq_nil_iff]
    intro a ha
    have ha2 : a ∈ colNames t := List.mem_dedup.mp ha
    simp [List.contains]
    exact ha2
  have hfil : (colNames t).filter (fun c => (colNames t).contains c) = colNames t :=
    List.filter_eq_self.mpr (fun a ha => List.elem_eq_true_of_mem ha)
  unfold validateColumns
  dsimp only
  simp only [hnil, hfil]
  simp

/-- `_validate_dates` gives full marks to a table compared with itself. -/
theorem validateDatesSelf (t : Table) : validateDates t t = 1 := by
  unfold validateDates
  dsimp only
  simp only [List.take_length]
  simp

/-- `_validate_symbols` gives full marks for a self-comparison when the
header has no duplicates and there is at least one option column. -/
theorem validateSymbolsSelf (t : Table) (hne : optionSymbols t ≠ [])
    (hnd : (colNames t).Nodup) : (validateSymbols t t).score = 1 := by
  have hnod : (optionSymbols t).Nodup := by
    unfold optionSymbols
    exact hnd.filter _
  have hd : (optionSymbols t).dedup = optionSymbols t := List.dedup_eq_self.mpr hnod
  unfold validateSymbols
  dsimp only
  rw [if_neg (fun h => hne (List.isEmpty_iff.mp h))]
  rw [hd, List.filter_eq_self.mpr (fun a ha => List.elem_eq_true_of_mem ha)]
  exact div_self (Nat.cast_ne_zero.mpr (fun h0 => hne (List.length_eq_zero.mp h0)))

/-- `_validate_active_periods` scores a present self-compared column 1
when its activity series passes `selfPeriodOk`. -/
theorem periodEntryForSelf (t : Table) (s : String)
    (hc : (colNames t).contains s = true)
    (hp : selfPeriodOk ((colData t s).map Option.isSome) = true) :
    (periodEntryFor t t s).score = 1 := by
  unfold selfPeriodOk at hp
  unfold periodEntryFor
  rw [if_neg (by rw [hc]; simp)]
  dsimp only
  simp only [min_self, List.take_length]
  cases hf : firstTrueIdx ((colData t s).map Option.isSome) with
  | none =>
    cases hl : srcLastIdx ((colData t s).map Option.isSome) with
    | none => rw [hf, hl] at hp; simp at hp
    | some lst => rw [hf, hl] at hp; simp at hp
  | some f =>
    cases hl : srcLastIdx ((colData t s).map Option.isSome) with
    | none => rw [hf, hl] at hp; simp at hp
    | some lst =>
      rw [hf, hl] at hp
      have hfl : f ≤ lst := by simpa using hp
      dsimp only
      simp only [max_self, min_self, sup_idem, inf_idem]
      have hle : (f : ℤ) ≤ (lst : ℤ) := by exact_mod_cast hfl
      rw [if_pos hle, if_pos (by omega)]
      exact div_self (Int.cast_ne_zero.mpr (by omega))

/-- `_validate_active_periods` gives full marks for a self-comparison when
every option column's activity series passes `selfPeriodOk`. -/
theorem validatePeriodsSelf (t : Table) (hne : optionSymbols t ≠ [])
    (hact : ∀ s ∈ optionSymbols t, selfPeriodOk ((colData t s).map Option.isSome) = true) :
    (validatePeriods t t).2 = 1 := by
  have hall : ∀ q ∈ (optionSymbols t).map (periodEntryFor t t), q.score = 1 := by
    intro q hq
    rcases List.mem_map.mp hq with ⟨s, hs, rfl⟩
    refine periodEntryForSelf t s ?_ (hact s hs)
    have hmem : s ∈ colNames t := by
      unfold optionSymbols at hs
      exact (List.mem_filter.mp hs).1
    exact List.elem_eq_true_of_mem hmem
  have hmapne : (optionSymbols t).map (periodEntryFor t t) ≠ [] := by
    simpa using hne
  unfold validatePeriods
  dsimp only
  rw [if_neg (fun h => hmapne (List.isEmpty_iff.mp h))]
  rw [sumAllOnes _ (by
    intro x hx
    rcases List.mem_map.mp hx with ⟨q, hq, rfl⟩
    exact hall q hq)]
  simp only [List.length_map]
  exact div_self (Nat.cast_ne_zero.mpr (fun h0 => hne (List.length_eq_zero.mp h0)))

/-- `_validate_values` scores a present self-compared column 1 when it has
a non-null cell and is as long as the timestamp column. -/
theorem valueScoreForSelf (t : Table) (s : String)
    (hc : (colNames t).contains s = true)
    (hclen : (colData t s).length = t.tsCol.length)
    {v : Option ℚ} (hv : v ∈ colData t s) (hvs : v.isSome = true) :
    valueScoreFor t t s = some 1 := by
  have hEne : expValsOf (colData t s) ≠ [] := expValsOfNeNil hv hvs
  have hcm : compsOf t (colData t s) (expValsOf (colData t s)) =
      (expValsOf (colData t s)).map (fun pr => (pr.2, pr.2)) := by
    unfold compsOf
    refine filterMapCongrMap _ _ _ ?_
    rintro ⟨i, w⟩ hx
    have hg : (colData t s)[i]? = some (some w) := expValsOfMem hx
    have hilt : i < (colData t s).length :=
      (List.getElem?_eq_some_iff.mp hg).1
    dsimp only
    rw [if_pos (by rw [← hclen]; exact hilt), hg]
    rfl
  have hfil : ((expValsOf (colData t s)).map (fun pr => ((pr.2 : ℚ), pr.2))).filter
      (fun pr => |pr.1 - pr.2| ≤ 1 / 100) =
      (expValsOf (colData t s)).map (fun pr => (pr.2, pr.2)) := by
    rw [List.filter_eq_self]
    intro x hx
    rcases List.mem_map.mp hx with ⟨⟨i, w⟩, hmem, rfl⟩
    simp
  have hpos : 0 < (expValsOf (colData t s)).length := List.length_pos.mpr hEne
  unfold valueScoreFor
  rw [if_pos hc]
  dsimp only
  rw [if_neg (fun h => hEne (List.isEmpty_iff.mp h))]
  simp only [hcm, hfil, List.length_map, ← expValsOfLen]
  rw [if_pos hpos]
  rw [div_self (Nat.cast_ne_zero.mpr (Nat.pos_iff_ne_zero.mp hpos))]
  simp

/-- `_validate_values` gives full marks for a self-comparison when every
option column is active somewhere and column lengths match the index. -/
theorem validateValuesSelf (t : Table) (hne : optionSymbols t ≠ [])
    (hlen : ∀ pc ∈ t.priceCols, pc.2.length = t.tsCol.length)
    (hact : ∀ s ∈ optionSymbols t, selfPeriodOk ((colData t s).map Option.isSome) = true) :
    validateValues t t = 1 := by
  have hall : ∀ s ∈ optionSymbols t, valueScoreFor t t s = some (1 : ℚ) := by
    intro s hs
    obtain ⟨v, hv, hvs⟩ := existsSomeOfSelfPeriodOk (hact s hs)
    have hmem : s ∈ colNames t := by
      unfold optionSymbols at hs
      exact (List.mem_filter.mp hs).1
    obtain ⟨pc, hpc, heq⟩ := colDataEq t s hs
    refine valueScoreForSelf t s (List.elem_eq_true_of_mem hmem) ?_ hv hvs
    rw [heq]
    exact hlen pc hpc
  unfold validateValues
  dsimp only
  rw [filterMapCongrMap (valueScoreFor t t) (fun _ => (1 : ℚ)) (optionSymbols t) hall]
  have hmapne : (optionSymbols t).map (fun _ => (1 : ℚ)) ≠ [] := by
    simpa using hne
  rw [if_neg (fun h => hmapne (List.isEmpty_iff.mp h))]
  rw [sumAllOnes _ (by
    intro x hx
    rcases List.mem_map.mp hx with ⟨a, ha, rfl⟩
    rfl)]
  simp only [List.length_map]
  exact div_self (Nat.cast_ne_zero.mpr (fun h0 => hne (List.length_eq_zero.mp h0)))

/-- `_validate_structure` gives full marks for a self-comparison when the
header and the rows have no duplicates. -/
theorem validateStructureSelf (t : Table) (hnd : (colNames t).Nodup)
    (hrows : (rowsOf t).Nodup) : validateStructure t t = 1 := by
  unfold validateStructure
  dsimp only
  rw [decide_eq_true (⟨rfl, rfl⟩ :
        t.tsCol.length = t.tsCol.length ∧ (colNames t).length = (colNames t).length),
    decide_eq_true hnd, decide_eq_true hrows]
  norm_num

/-- Claim C7 (corrected, counterexample): a table whose single option
column is entirely empty, validated against itself by a fresh validator,
scores 0 on the active-period aspect (both period indices are `None`) and
0 on the value aspect (the column has no expected values), so the overall
weighted score is 0.55, not 1.0. -/
theorem c7_counterexample :
    (validate emptyColTable none emptyColTable).overall = 11 / 20 ∧
      ¬ ((validate emptyColTable none emptyColTable).overall = 1 ∧
        (validate emptyColTable none emptyColTable).errors = []) := by
  have h1 := validateColumnsSelf emptyColTable
  have h2 := validateDatesSelf emptyColTable
  have h3 := validateSymbolsSelf emptyColTable (by decide) (by decide)
  have h6 := validateStructureSelf emptyColTable (by decide) (by decide)
  have hos : optionSymbols emptyColTable = ["OHF2 C00278"] := by decide
  have h4 : (validatePeriods emptyColTable emptyColTable).2 = 0 := by
    have hsc : (periodEntryFor emptyColTable emptyColTable "OHF2 C00278").score = 0 := rfl
    unfold validatePeriods
    dsimp only
    rw [hos]
    simp [hsc]
  have h5 : validateValues emptyColTable emptyColTable = 0 := by
    have hvs : valueScoreFor emptyColTable emptyColTable "OHF2 C00278" = some 0 := rfl
    unfold validateValues
    dsimp only
    rw [hos]
    simp [List.filterMap_cons, hvs]
  have hov : (validate emptyColTable none emptyColTable).overall = 11 / 20 := by
    unfold validate
    dsimp only
    rw [h1, h2, h3, h4, h5, h6]
    norm_num
  refine ⟨hov, fun hcontra => ?_⟩
  rw [hov] at hcontra
  exact absurd hcontra.1 (by norm_num)

/-- Claim C7 (corrected): a generated file identical to the reference
passes a fresh validator with overall accuracy 1.0 and no detailed errors,
provided the reference has at least one option column, no duplicate header
names or rows, columns as long as the timestamp index, and every option
column's activity series passes the source's (label-based) last-index
comparison, i.e. its first non-null row comes no later than the distance
of its last non-null row from the end of the column. -/
theorem c7_self_validation (t : Table)
    (hne : optionSymbols t ≠ [])
    (hnd : (colNames t).Nodup)
    (hrows : (rowsOf t).Nodup)
    (hlen : ∀ pc ∈ t.priceCols, pc.2.length = t.tsCol.length)
    (hact : ∀ s ∈ optionSymbols t, selfPeriodOk ((colData t s).map Option.isSome) = true) :
    (validate t none t).overall = 1 ∧ (validate t none t).errors = [] := by
  constructor
  · unfold validate
    dsimp only
    rw [validateColumnsSelf t, validateDatesSelf t, validateSymbolsSelf t hne hnd,
      validatePeriodsSelf t hne hact, validateValuesSelf t hne hlen hact,
      validateStructureSelf t hnd hrows]
    norm_num
  · rfl

/-- Witness: a one-row table with a single populated option column
satisfies every hypothesis of the amended claim and validates with overall
accuracy 1.0 and no errors. -/
theorem c7_self_validation_witness :
    (validate oneRowTable none oneRowTable).overall = 1 ∧
      (validate oneRowTable none oneRowTable).errors = [] :=
  c7_self_validation oneRowTable (by decide) (by decide) (by decide) (by decide)
    (by decide)

end DBOP
